import Mathlib

/-
Shallow embedding of the core logic of the spell-checker widget
(src/spellchecker.js): the API response normalizer (parseApiResponse),
the overlay construction of highlightMistakes (text splitting, HTML
escaping via escapeHtml), the range check of
highlightContentEditableMistakes, and the per-element check-cycle state
transitions (checkSpelling, clearHighlights).

Modelling conventions: JavaScript numbers are Int, possibly-undefined
fields are Option, arrays are List.  String.prototype.substring is
modelled with its clamp-and-swap semantics.  Array.prototype.sort with
the comparator (a, b) => a.startIndex - b.startIndex is modelled as a
stable insertion sort by startIndex, matching the ECMAScript
requirement that Array.prototype.sort is stable.
-/

/-- Model of the nested-shape location object: location.offset and
location.length from the raw API response. -/
structure Location where
  offset : Int
  length : Int
  deriving DecidableEq

/-- Model of one entry of text.spelling_issues or text.grammar_issues in
the nested response shape; location may be undefined. -/
structure Issue where
  location : Option Location
  message : Option String
  suggestions : Option (List String)
  code : Option String
  deriving DecidableEq

/-- Model of one entry of the flat mistakes array in the legacy response
shape; startIndex, endIndex and type may be undefined. -/
structure FlatEntry where
  startIndex : Option Int
  endIndex : Option Int
  type : Option String
  message : Option String
  suggestions : Option (List String)
  code : Option String
  deriving DecidableEq

/-- Model of the data.text part of the nested response shape; each issue
array is present only when Array.isArray succeeds on it. -/
structure NestedText where
  spelling_issues : Option (List Issue)
  grammar_issues : Option (List Issue)
  deriving DecidableEq

/-- Model of the raw API response object handled by parseApiResponse:
both the nested shape (data.text) and the flat shape (data.mistakes)
can be present at once, exactly as in the source. -/
structure ApiData where
  text : Option NestedText
  mistakes : Option (List FlatEntry)
  deriving DecidableEq

/-- The normalized mistake record pushed by parseApiResponse.  In the
nested branch suggestions is always an array (issue.suggestions or []);
in the flat branch the spread keeps a possibly-undefined suggestions
field, hence Option. -/
structure Mistake where
  startIndex : Int
  endIndex : Int
  message : Option String
  suggestions : Option (List String)
  type : String
  code : Option String
  deriving DecidableEq

/-- JavaScript a-or-b on strings: mistake.type or a default, where
undefined and the empty string are falsy. -/
def jsOrString (v : Option String) (dflt : String) : String :=
  match v with
  | none => dflt
  | some s => if s = "" then dflt else s

/-- Embedding of parseApiResponse (src/spellchecker.js lines 430-480):
pushes nested spelling issues with a location, then nested grammar
issues with a location, then flat entries with both indices defined,
in source order, with no sorting and no range validation. -/
def parseApiResponse (data : ApiData) : List Mistake :=
  let mistakes : List Mistake := []
  let mistakes :=
    match data.text with
    | none => mistakes
    | some t =>
      let mistakes :=
        match t.spelling_issues with
        | none => mistakes
        | some issues =>
          issues.foldl (fun acc issue =>
            match issue.location with
            | none => acc
            | some loc => acc ++
              [{ startIndex := loc.offset, endIndex := loc.offset + loc.length,
                 message := issue.message,
                 suggestions := some (issue.suggestions.getD []),
                 type := "spelling", code := issue.code }]) mistakes
      match t.grammar_issues with
      | none => mistakes
      | some issues =>
        issues.foldl (fun acc issue =>
          match issue.location with
          | none => acc
          | some loc => acc ++
            [{ startIndex := loc.offset, endIndex := loc.offset + loc.length,
               message := issue.message,
               suggestions := some (issue.suggestions.getD []),
               type := "grammar", code := issue.code }]) mistakes
  match data.mistakes with
  | none => mistakes
  | some flats =>
    flats.foldl (fun acc f =>
      match f.startIndex, f.endIndex with
      | some s, some e => acc ++
        [{ startIndex := s, endIndex := e, message := f.message,
           suggestions := f.suggestions,
           type := jsOrString f.type "spelling", code := f.code }]
      | _, _ => acc) mistakes

/-- The spelling issue list processed by parseApiResponse for a given
response (empty when the nested shape or the array is absent). -/
def spellingIssuesOf (d : ApiData) : List Issue :=
  match d.text with
  | some t => t.spelling_issues.getD []
  | none => []

/-- The grammar issue list processed by parseApiResponse for a given
response. -/
def grammarIssuesOf (d : ApiData) : List Issue :=
  match d.text with
  | some t => t.grammar_issues.getD []
  | none => []

/-- The flat mistakes list processed by parseApiResponse for a given
response. -/
def flatEntriesOf (d : ApiData) : List FlatEntry :=
  d.mistakes.getD []

/-- The record parseApiResponse builds from one nested issue:
startIndex = location.offset, endIndex = location.offset +
location.length; none when the issue has no location. -/
def mkNestedMistake (ty : String) (i : Issue) : Option Mistake :=
  i.location.map (fun loc =>
    { startIndex := loc.offset, endIndex := loc.offset + loc.length,
      message := i.message, suggestions := some (i.suggestions.getD []),
      type := ty, code := i.code })

/-- The record parseApiResponse builds from one flat entry: the direct
startIndex and endIndex fields, with type defaulted to spelling; none
when either index is undefined. -/
def mkFlatMistake (f : FlatEntry) : Option Mistake :=
  match f.startIndex, f.endIndex with
  | some s, some e =>
    some { startIndex := s, endIndex := e, message := f.message,
           suggestions := f.suggestions,
           type := jsOrString f.type "spelling", code := f.code }
  | _, _ => none

/-- Insertion step of the stable ascending sort by startIndex used to
model mistakes.sort((a, b) => a.startIndex - b.startIndex) at
src/spellchecker.js line 629. -/
def insertByStart (m : Mistake) : List Mistake → List Mistake
  | [] => [m]
  | x :: xs =>
    if m.startIndex ≤ x.startIndex then m :: x :: xs
    else x :: insertByStart m xs

/-- Stable ascending sort by startIndex, the model of the sort applied
by highlightMistakes before building the overlay. -/
def sortByStart : List Mistake → List Mistake
  | [] => []
  | m :: ms => insertByStart m (sortByStart ms)

/-- Insertion step of the stable descending sort by startIndex used to
model mistakes.sort((a, b) => b.startIndex - a.startIndex) at
src/spellchecker.js line 748. -/
def insertByStartDesc (m : Mistake) : List Mistake → List Mistake
  | [] => [m]
  | x :: xs =>
    if x.startIndex ≤ m.startIndex then m :: x :: xs
    else x :: insertByStartDesc m xs

/-- Stable descending sort by startIndex, the model of the sort applied
by highlightContentEditableMistakes. -/
def sortByStartDesc : List Mistake → List Mistake
  | [] => []
  | m :: ms => insertByStartDesc m (sortByStartDesc ms)

/-- One global single-character regex replace pass, the model of
text.replace of a one-character pattern by a fixed string. -/
def replaceAll (target : Char) (repl : List Char) : List Char → List Char
  | [] => []
  | c :: rest => (if c = target then repl else [c]) ++ replaceAll target repl rest

/-- Embedding of escapeHtml (src/spellchecker.js lines 717-727): six
sequential global replace passes, in source order: ampersand, less
than, greater than, double quote, apostrophe (codepoint 39), space. -/
def escapeHtml (s : List Char) : List Char :=
  replaceAll ' ' ['&', 'n', 'b', 's', 'p', ';']
    (replaceAll (Char.ofNat 39) ['&', '#', '0', '3', '9', ';']
      (replaceAll '"' ['&', 'q', 'u', 'o', 't', ';']
        (replaceAll '>' ['&', 'g', 't', ';']
          (replaceAll '<' ['&', 'l', 't', ';']
            (replaceAll '&' ['&', 'a', 'm', 'p', ';'] s)))))

/-- Per-character view of escapeHtml: the entity each character is
escaped to (or itself when it needs no escaping). -/
def escChar (c : Char) : List Char :=
  if c = '&' then ['&', 'a', 'm', 'p', ';']
  else if c = '<' then ['&', 'l', 't', ';']
  else if c = '>' then ['&', 'g', 't', ';']
  else if c = '"' then ['&', 'q', 'u', 'o', 't', ';']
  else if c = Char.ofNat 39 then ['&', '#', '0', '3', '9', ';']
  else if c = ' ' then ['&', 'n', 'b', 's', 'p', ';']
  else [c]

/-- Inverse of escapeHtml: decodes the six entities escapeHtml emits and
leaves every other character unchanged. -/
def unescapeHtml : List Char → List Char
  | [] => []
  | c :: rest =>
    if c = '&' then
      if rest.take 4 = ['a', 'm', 'p', ';'] then '&' :: unescapeHtml (rest.drop 4)
      else if rest.take 3 = ['l', 't', ';'] then '<' :: unescapeHtml (rest.drop 3)
      else if rest.take 3 = ['g', 't', ';'] then '>' :: unescapeHtml (rest.drop 3)
      else if rest.take 5 = ['q', 'u', 'o', 't', ';'] then '"' :: unescapeHtml (rest.drop 5)
      else if rest.take 5 = ['#', '0', '3', '9', ';'] then Char.ofNat 39 :: unescapeHtml (rest.drop 5)
      else if rest.take 5 = ['n', 'b', 's', 'p', ';'] then ' ' :: unescapeHtml (rest.drop 5)
      else c :: unescapeHtml rest
    else c :: unescapeHtml rest
termination_by l => l.length
decreasing_by
  all_goals simp [List.length_drop, List.length_cons]
  all_goals omega

/-- Model of String.prototype.substring: both arguments are clamped into
[0, length] and swapped when start exceeds the end. -/
def jsSubstring (text : List Char) (start stop : Int) : List Char :=
  let len : Int := text.length
  let s := min (max start 0) len
  let e := min (max stop 0) len
  let lo := min s e
  let hi := max s e
  (text.take hi.toNat).drop lo.toNat

/-- One piece of the overlay content built by highlightMistakes: either
a plain text segment between mistakes or a span-wrapped mistake
segment. -/
inductive Piece where
  | plain (content : List Char)
  | marked (m : Mistake) (content : List Char)
  deriving DecidableEq

/-- The raw (pre-escaping) text of a piece. -/
def pieceContent : Piece → List Char
  | .plain s => s
  | .marked _ s => s

/-- Embedding of the overlay-building loop of highlightMistakes
(src/spellchecker.js lines 626-658): walk the sorted mistakes, emit the
substring before each mistake, the span-wrapped mistake substring, and
finally the remainder, all via substring from the running lastIndex. -/
def buildPieces (text : List Char) (lastIndex : Int) : List Mistake → List Piece
  | [] => [Piece.plain (jsSubstring text lastIndex text.length)]
  | m :: ms =>
    Piece.plain (jsSubstring text lastIndex m.startIndex) ::
    Piece.marked m (jsSubstring text m.startIndex m.endIndex) ::
    buildPieces text m.endIndex ms

/-- The full piece list of the overlay for a text and mistake list: the
code sorts the mistakes ascending by startIndex and then walks them
starting at lastIndex zero. -/
def overlayPieces (text : List Char) (mistakes : List Mistake) : List Piece :=
  buildPieces text 0 (sortByStart mistakes)

/-- The marked spans of a piece list, each with the mistake it carries
and the text it covers. -/
def markedOf (ps : List Piece) : List (Mistake × List Char) :=
  ps.filterMap (fun p =>
    match p with
    | .marked m s => some (m, s)
    | .plain _ => none)

/-- The text content of the rendered overlay: the concatenation of the
escapeHtml image of every piece, exactly as the html string is
assembled in highlightMistakes. -/
def overlayEscaped (text : List Char) (mistakes : List Mistake) : List Char :=
  ((overlayPieces text mistakes).map (fun p => escapeHtml (pieceContent p))).flatten

/-- Well-formed span list relative to a lower bound and a text length:
each span starts at or after the bound, is ordered, ends within the
text, and the next span starts at or after its end (sorted,
non-overlapping, in range). -/
def validSpans (len : Int) : Int → List Mistake → Bool
  | _, [] => true
  | lo, m :: ms =>
    decide (lo ≤ m.startIndex) && decide (m.startIndex ≤ m.endIndex) &&
    decide (m.endIndex ≤ len) && validSpans len m.endIndex ms

/-- Embedding of the span-producing filter of
highlightContentEditableMistakes (src/spellchecker.js lines 747-767):
mistakes are sorted descending by startIndex and a span is produced
exactly for those with startIndex at least zero and endIndex at most
the text length. -/
def highlightContentEditableSpans (textLen : Int) (mistakes : List Mistake) : List Mistake :=
  (sortByStartDesc mistakes).filter (fun m =>
    decide (0 ≤ m.startIndex) && decide (m.endIndex ≤ textLen))

/-- The invariant claimed for normalized records: 0 ≤ startIndex <
endIndex ≤ text length. -/
def mistakeInRange (len : Int) (m : Mistake) : Bool :=
  decide (0 ≤ m.startIndex) && decide (m.startIndex < m.endIndex) &&
  decide (m.endIndex ≤ len)

/-- A nested issue is range-safe when its location (if any) has a
non-negative offset, a positive length, and ends within the text. -/
def issueInRange (len : Int) (i : Issue) : Bool :=
  match i.location with
  | none => true
  | some loc =>
    decide (0 ≤ loc.offset) && decide (0 < loc.length) &&
    decide (loc.offset + loc.length ≤ len)

/-- A flat entry is range-safe when its indices (if both defined)
satisfy 0 ≤ startIndex < endIndex ≤ text length. -/
def flatInRange (len : Int) (f : FlatEntry) : Bool :=
  match f.startIndex, f.endIndex with
  | some s, some e => decide (0 ≤ s) && decide (s < e) && decide (e ≤ len)
  | _, _ => true

/-- A raw response is range-safe when every issue and flat entry in it
is. -/
def rawInRange (len : Int) (d : ApiData) : Bool :=
  (spellingIssuesOf d).all (issueInRange len) &&
  (grammarIssuesOf d).all (issueInRange len) &&
  (flatEntriesOf d).all (flatInRange len)

/-- The overlay node stored for an input in state.activeInputs: the
rendered pieces and the (sorted) mistake list. -/
structure OverlayData where
  pieces : List Piece
  mistakes : List Mistake
  deriving DecidableEq

/-- One entry of state.activeInputs: an object that may or may not hold
an overlay (clearHighlights stores an empty object). -/
structure EntryData where
  overlay : Option OverlayData
  deriving DecidableEq

/-- The per-element slice of the widget state: none when the element has
no entry in state.activeInputs at all. -/
structure ElementState where
  entry : Option EntryData
  deriving DecidableEq

/-- The overlay currently rendered in the document for an element (none
when the element has no entry or an entry without an overlay). -/
def renderedOverlay (st : ElementState) : Option OverlayData :=
  st.entry.bind (fun en => en.overlay)

/-- Embedding of clearHighlights (src/spellchecker.js lines 776-785):
removes the overlay node when the entry has one and stores an empty
entry object for the element. -/
def clearHighlights (_st : ElementState) : ElementState :=
  { entry := some { overlay := none } }

/-- Embedding of the input/textarea path of highlightMistakes: clear
first, then stop when the mistake list is empty, else store the freshly
built overlay together with the sorted mistake list. -/
def highlightMistakes (text : List Char) (mistakes : List Mistake) (st : ElementState) : ElementState :=
  let st1 := clearHighlights st
  if mistakes.length = 0 then st1
  else { entry := some { overlay :=
                           some { pieces := overlayPieces text mistakes,
                                  mistakes := sortByStart mistakes } } }

/-- Outcome of the fetch of one check cycle: a thrown network error, or
a response with its ok flag and parsed JSON body. -/
inductive NetResult where
  | failure : NetResult
  | response (ok : Bool) (data : ApiData) : NetResult
  deriving DecidableEq

/-- True when the fetch threw or the response status is not ok. -/
def netFailed : NetResult → Bool
  | .failure => true
  | .response ok _ => !ok

/-- Model of the character class removed by String.prototype.trim
(ASCII whitespace, NBSP, BOM and the line separators). -/
def isJsWhitespace (c : Char) : Bool :=
  c = ' ' || c = Char.ofNat 9 || c = Char.ofNat 10 || c = Char.ofNat 11 ||
  c = Char.ofNat 12 || c = Char.ofNat 13 || c = Char.ofNat 160 ||
  c = Char.ofNat 0x2028 || c = Char.ofNat 0x2029 || c = Char.ofNat 0xFEFF

/-- Model of String.prototype.trim: drop leading and trailing
whitespace. -/
def jsTrim (s : String) : String :=
  String.mk (((s.data.dropWhile isJsWhitespace).reverse.dropWhile isJsWhitespace).reverse)

/-- The guard of checkSpelling: JavaScript !text || text.trim() is the
empty string. -/
def isBlankJs (text : String) : Bool :=
  text = "" || jsTrim text = ""

/-- Embedding of checkSpelling (src/spellchecker.js lines 485-546) for
one input element, with the fetch outcome passed explicitly.  Blank
text clears the highlights and returns before any request; a thrown
fetch or a non-ok status is caught and leaves the state untouched; a
successful response is normalized and rendered.  The Bool records
whether a network request was issued. -/
def checkSpelling (text : String) (net : NetResult) (st : ElementState) : ElementState × Bool :=
  if isBlankJs text then (clearHighlights st, false)
  else
    match net with
    | .failure => (st, true)
    | .response ok data =>
      if ok then (highlightMistakes text.data (parseApiResponse data) st, true)
      else (st, true)

/-- A nested response whose spelling issues arrive with descending
offsets (5 then 0). -/
def unsortedResp : ApiData :=
  { text := some
      { spelling_issues := some
          [ { location := some { offset := 5, length := 1 },
              message := none, suggestions := none, code := none },
            { location := some { offset := 0, length := 2 },
              message := none, suggestions := none, code := none } ],
        grammar_issues := none },
    mistakes := none }

/-- A flat response whose single entry has startIndex greater than
endIndex. -/
def badFlatResp : ApiData :=
  { text := none,
    mistakes := some
      [ { startIndex := some 5, endIndex := some 3, type := none,
          message := none, suggestions := none, code := none } ] }

/-- A nested batch of two located spelling issues and one issue with a
missing location. -/
def demoBatch : ApiData :=
  { text := some
      { spelling_issues := some
          [ { location := some { offset := 0, length := 4 },
              message := some "m1", suggestions := none, code := none },
            { location := none,
              message := some "broken", suggestions := none, code := none },
            { location := some { offset := 5, length := 5 },
              message := some "m2", suggestions := none, code := none } ],
        grammar_issues := none },
    mistakes := none }

/-- A range-safe response mixing both shapes, used to instantiate the
range-invariant theorem. -/
def goodResp : ApiData :=
  { text := some
      { spelling_issues := some
          [ { location := some { offset := 0, length := 4 },
              message := none, suggestions := none, code := none } ],
        grammar_issues := some
          [ { location := some { offset := 5, length := 5 },
              message := none, suggestions := none, code := none } ] },
    mistakes := some
      [ { startIndex := some 2, endIndex := some 3, type := some "grammar",
          message := none, suggestions := none, code := none } ] }

/-- A bare spelling mistake record with the given span. -/
def mkDemoMistake (s e : Int) : Mistake :=
  { startIndex := s, endIndex := e, message := none, suggestions := none,
    type := "spelling", code := none }

/-- The two mistakes of the worked overlay example (spans 0-4 and 5-10
of the text Helo wrold). -/
def demoMistakes : List Mistake :=
  [mkDemoMistake 0 4, mkDemoMistake 5 10]

/-- A mistake whose endIndex exceeds the length of the two-character
text it is rendered against. -/
def outOfRangeMistake : Mistake :=
  mkDemoMistake 0 5

/-- The flat entry of the type-defaulting example: startIndex 0,
endIndex 3, type undefined. -/
def demoFlatEntry : FlatEntry :=
  { startIndex := some 0, endIndex := some 3, type := none,
    message := none, suggestions := none, code := none }

/-- An element state carrying a rendered overlay, used to instantiate
the failure-preservation and blank-input theorems. -/
def demoOverlayState : ElementState :=
  { entry := some { overlay :=
                      some { pieces := [Piece.plain ['a']],
                             mistakes := [mkDemoMistake 0 1] } } }

/-- Membership in the insertion step: every element of the result is the
inserted mistake or came from the original list. -/
theorem mem_insertByStart (y m : Mistake) (l : List Mistake)
    (h : y ∈ insertByStart m l) : y = m ∨ y ∈ l := by
  induction l with
  | nil => simpa [insertByStart] using h
  | cons x xs ih =>
    simp only [insertByStart] at h
    split at h
    · rcases List.mem_cons.mp h with h | h
      · exact Or.inl h
      · exact Or.inr h
    · rcases List.mem_cons.mp h with h | h
      · exact Or.inr (by simp [h])
      · rcases ih h with h | h
        · exact Or.inl h
        · exact Or.inr (by simp [h])

/-- The insertion step preserves sortedness by startIndex. -/
theorem sorted_insertByStart (m : Mistake) (l : List Mistake)
    (hl : List.Sorted (fun a b : Mistake => a.startIndex ≤ b.startIndex) l) :
    List.Sorted (fun a b : Mistake => a.startIndex ≤ b.startIndex) (insertByStart m l) := by
  induction l with
  | nil => simp [insertByStart]
  | cons x xs ih =>
    rw [List.sorted_cons] at hl
    obtain ⟨hx, hxs⟩ := hl
    simp only [insertByStart]
    split
    · rename_i hmx
      rw [List.sorted_cons]
      refine ⟨?_, ?_⟩
      · intro y hy
        rcases List.mem_cons.mp hy with rfl | hy
        · exact hmx
        · exact le_trans hmx (hx y hy)
      · rw [List.sorted_cons]
        exact ⟨hx, hxs⟩
    · rename_i hmx
      rw [List.sorted_cons]
      refine ⟨?_, ih hxs⟩
      intro y hy
      rcases mem_insertByStart y m xs hy with rfl | hy
      · omega
      · exact hx y hy

/-- The model of the sort in highlightMistakes returns a list sorted
ascending by startIndex. -/
theorem sortByStart_sorted (ms : List Mistake) :
    List.Sorted (fun a b : Mistake => a.startIndex ≤ b.startIndex) (sortByStart ms) := by
  induction ms with
  | nil => simp [sortByStart]
  | cons m ms ih => exact sorted_insertByStart m _ ih

/-- Filtering on one startIndex value commutes with the insertion step:
the inserted mistake lands in front of every kept element. -/
theorem filter_key_insertByStart (k : Int) (m : Mistake) (l : List Mistake) :
    (insertByStart m l).filter (fun x => decide (x.startIndex = k))
      = if m.startIndex = k
        then m :: l.filter (fun x => decide (x.startIndex = k))
        else l.filter (fun x => decide (x.startIndex = k)) := by
  induction l with
  | nil =>
    by_cases hk : m.startIndex = k <;> simp [insertByStart, List.filter_cons, hk]
  | cons x xs ih =>
    simp only [insertByStart]
    split
    · rename_i hmx
      by_cases hk : m.startIndex = k <;> simp [List.filter_cons, hk]
    · rename_i hmx
      by_cases hk : m.startIndex = k
      · have hxk : ¬ (x.startIndex = k) := by omega
        simp [List.filter_cons, hxk, ih, hk]
      · by_cases hxk : x.startIndex = k <;>
          simp [List.filter_cons, hxk, ih, hk]

/-- Stability of the modelled sort: the records with any fixed
startIndex appear in the sorted output exactly in their source order. -/
theorem filter_key_sortByStart (k : Int) (ms : List Mistake) :
    (sortByStart ms).filter (fun x => decide (x.startIndex = k))
      = ms.filter (fun x => decide (x.startIndex = k)) := by
  induction ms with
  | nil => rfl
  | cons m ms ih =>
    rw [sortByStart, filter_key_insertByStart, List.filter_cons]
    by_cases hk : m.startIndex = k <;> simp [hk, ih]

/-- The modelled sort is the identity on lists already sorted by
startIndex. -/
theorem sortByStart_of_sorted (ms : List Mistake)
    (h : List.Sorted (fun a b : Mistake => a.startIndex ≤ b.startIndex) ms) :
    sortByStart ms = ms := by
  induction ms with
  | nil => rfl
  | cons m ms ih =>
    rw [List.sorted_cons] at h
    obtain ⟨hm, hms⟩ := h
    rw [sortByStart, ih hms]
    cases ms with
    | nil => rfl
    | cons x xs => simp [insertByStart, hm x (by simp)]

/-- The spelling/grammar push loop of parseApiResponse appends one
record per located issue, in source order. -/
theorem foldl_pushNested (ty : String) (issues : List Issue) (acc : List Mistake) :
    issues.foldl (fun acc issue =>
      match issue.location with
      | none => acc
      | some loc => acc ++
        [{ startIndex := loc.offset, endIndex := loc.offset + loc.length,
           message := issue.message,
           suggestions := some (issue.suggestions.getD []),
           type := ty, code := issue.code }]) acc
      = acc ++ issues.filterMap (mkNestedMistake ty) := by
  induction issues generalizing acc with
  | nil => simp
  | cons i is ih =>
    rw [List.foldl_cons, List.filterMap_cons]
    cases hl : i.location with
    | none => simp [hl, ih, mkNestedMistake]
    | some loc => simp [hl, ih, mkNestedMistake]

/-- The flat push loop of parseApiResponse appends one record per entry
with both indices defined, in source order. -/
theorem foldl_pushFlat (flats : List FlatEntry) (acc : List Mistake) :
    flats.foldl (fun acc f =>
      match f.startIndex, f.endIndex with
      | some s, some e => acc ++
        [{ startIndex := s, endIndex := e, message := f.message,
           suggestions := f.suggestions,
           type := jsOrString f.type "spelling", code := f.code }]
      | _, _ => acc) acc
      = acc ++ flats.filterMap mkFlatMistake := by
  induction flats generalizing acc with
  | nil => simp
  | cons f fs ih =>
    rw [List.foldl_cons, List.filterMap_cons]
    cases hs : f.startIndex with
    | none => simp [mkFlatMistake, hs, ih]
    | some s =>
      cases he : f.endIndex with
      | none => simp [mkFlatMistake, hs, he, ih]
      | some e => simp [mkFlatMistake, hs, he, ih]

/-- Characterization of parseApiResponse: located spelling issues, then
located grammar issues, then well-indexed flat entries, each mapped to
its record, in source order. -/
theorem parseApiResponse_eq (d : ApiData) :
    parseApiResponse d =
      (spellingIssuesOf d).filterMap (mkNestedMistake "spelling") ++
      (grammarIssuesOf d).filterMap (mkNestedMistake "grammar") ++
      (flatEntriesOf d).filterMap mkFlatMistake := by
  obtain ⟨t, fl⟩ := d
  cases t with
  | none =>
    cases fl with
    | none => simp [parseApiResponse, spellingIssuesOf, grammarIssuesOf, flatEntriesOf]
    | some flats =>
      simp [parseApiResponse, spellingIssuesOf, grammarIssuesOf, flatEntriesOf, foldl_pushFlat]
  | some tt =>
    obtain ⟨sp, gr⟩ := tt
    cases sp <;> cases gr <;> cases fl <;>
      simp [parseApiResponse, spellingIssuesOf, grammarIssuesOf, flatEntriesOf,
        foldl_pushNested, foldl_pushFlat]

/-- The single-character replace pass is a homomorphism for list
concatenation. -/
theorem replaceAll_append (t : Char) (r : List Char) (a b : List Char) :
    replaceAll t r (a ++ b) = replaceAll t r a ++ replaceAll t r b := by
  induction a with
  | nil => simp [replaceAll]
  | cons c cs ih => simp [replaceAll, ih]

/-- escapeHtml processes the input character by character: each
character contributes exactly its entity (or itself). -/
theorem escapeHtml_cons (c : Char) (s : List Char) :
    escapeHtml (c :: s) = escChar c ++ escapeHtml s := by
  rcases eq_or_ne c '&' with rfl | h1
  · rfl
  rcases eq_or_ne c '<' with rfl | h2
  · rfl
  rcases eq_or_ne c '>' with rfl | h3
  · rfl
  rcases eq_or_ne c '"' with rfl | h4
  · rfl
  rcases eq_or_ne c (Char.ofNat 39) with rfl | h5
  · rfl
  rcases eq_or_ne c ' ' with rfl | h6
  · rfl
  · simp [escapeHtml, escChar, replaceAll_append, replaceAll, h1, h2, h3, h4, h5, h6]

/-- escapeHtml is a homomorphism for list concatenation. -/
theorem escapeHtml_append (a b : List Char) :
    escapeHtml (a ++ b) = escapeHtml a ++ escapeHtml b := by
  induction a with
  | nil => rfl
  | cons c cs ih =>
    rw [List.cons_append, escapeHtml_cons, escapeHtml_cons, ih, List.append_assoc]

/-- The decoder consumes exactly one escaped character from the front of
any continuation. -/
theorem unescapeHtml_escChar (c : Char) (t : List Char) :
    unescapeHtml (escChar c ++ t) = c :: unescapeHtml t := by
  rcases eq_or_ne c '&' with rfl | h1
  · simp [unescapeHtml, escChar]
  rcases eq_or_ne c '<' with rfl | h2
  · simp [unescapeHtml, escChar]
  rcases eq_or_ne c '>' with rfl | h3
  · simp [unescapeHtml, escChar]
  rcases eq_or_ne c '"' with rfl | h4
  · simp [unescapeHtml, escChar]
  rcases eq_or_ne c (Char.ofNat 39) with rfl | h5
  · simp [unescapeHtml, escChar]
  rcases eq_or_ne c ' ' with rfl | h6
  · simp [unescapeHtml, escChar]
  · simp [unescapeHtml, escChar, h1, h2, h3, h4, h5, h6]

/-- unescapeHtml is a left inverse of escapeHtml. -/
theorem unescapeHtml_escapeHtml (s : List Char) : unescapeHtml (escapeHtml s) = s := by
  induction s with
  | nil => simp [escapeHtml, replaceAll, unescapeHtml]
  | cons c cs ih => rw [escapeHtml_cons, unescapeHtml_escChar, ih]

/-- jsSubstring with arguments already in range and in order is a plain
take-then-drop slice. -/
theorem jsSubstring_of_range (text : List Char) (a b : Int)
    (h0 : 0 ≤ a) (hab : a ≤ b) (hb : b ≤ (text.length : Int)) :
    jsSubstring text a b = (text.take b.toNat).drop a.toNat := by
  have e1 : (min (min (max a 0) (text.length : Int)) (min (max b 0) (text.length : Int))).toNat
      = a.toNat := by omega
  have e2 : (max (min (max a 0) (text.length : Int)) (min (max b 0) (text.length : Int))).toNat
      = b.toNat := by omega
  simp only [jsSubstring]
  rw [e1, e2]

/-- Two adjacent slices of the same list concatenate to the enclosing
slice. -/
theorem take_drop_chain (t : List Char) (a b c : Nat)
    (hab : a ≤ b) (hbc : b ≤ c) :
    (t.take b).drop a ++ (t.take c).drop b = (t.take c).drop a := by
  have h1 : (t.take c).take b = t.take b := by rw [List.take_take, min_eq_left hbc]
  by_cases hbl : b ≤ t.length
  · have h2 : a ≤ ((t.take c).take b).length := by
      rw [h1, List.length_take]
      omega
    calc (t.take b).drop a ++ (t.take c).drop b
        = ((t.take c).take b).drop a ++ (t.take c).drop b := by rw [h1]
      _ = (((t.take c).take b) ++ (t.take c).drop b).drop a := by
          rw [List.drop_append_of_le_length h2]
      _ = (t.take c).drop a := by rw [List.take_append_drop]
  · push_neg at hbl
    have hbt : t.take b = t := List.take_of_length_le (by omega)
    have hct : t.take c = t := List.take_of_length_le (by omega)
    have hdb : t.drop b = [] := List.drop_eq_nil_of_le (by omega)
    rw [hbt, hct, hdb, List.append_nil]

/-- Every span of a valid span list starts at or after the running lower
bound. -/
theorem validSpans_lowerBound (len lo : Int) (ms : List Mistake)
    (h : validSpans len lo ms = true) :
    ∀ x ∈ ms, lo ≤ x.startIndex := by
  induction ms generalizing lo with
  | nil => simp
  | cons m ms ih =>
    simp only [validSpans, Bool.and_eq_true, decide_eq_true_eq] at h
    obtain ⟨⟨⟨h1, h2⟩, h3⟩, h4⟩ := h
    intro x hx
    rcases List.mem_cons.mp hx with rfl | hx
    · exact h1
    · have := ih m.endIndex h4 x hx
      omega

/-- A valid span list is sorted ascending by startIndex. -/
theorem validSpans_sorted (len lo : Int) (ms : List Mistake)
    (h : validSpans len lo ms = true) :
    List.Sorted (fun a b : Mistake => a.startIndex ≤ b.startIndex) ms := by
  induction ms generalizing lo with
  | nil => simp
  | cons m ms ih =>
    simp only [validSpans, Bool.and_eq_true, decide_eq_true_eq] at h
    obtain ⟨⟨⟨h1, h2⟩, h3⟩, h4⟩ := h
    rw [List.sorted_cons]
    refine ⟨?_, ih m.endIndex h4⟩
    intro y hy
    have := validSpans_lowerBound len m.endIndex ms h4 y hy
    omega

/-- Every span of a valid span list is itself in range. -/
theorem validSpans_bounds (len lo : Int) (ms : List Mistake)
    (h0 : 0 ≤ lo) (h : validSpans len lo ms = true) :
    ∀ x ∈ ms, 0 ≤ x.startIndex ∧ x.startIndex ≤ x.endIndex ∧ x.endIndex ≤ len := by
  induction ms generalizing lo with
  | nil => simp
  | cons m ms ih =>
    simp only [validSpans, Bool.and_eq_true, decide_eq_true_eq] at h
    obtain ⟨⟨⟨h1, h2⟩, h3⟩, h4⟩ := h
    intro x hx
    rcases List.mem_cons.mp hx with rfl | hx
    · exact ⟨by omega, h2, h3⟩
    · exact ih m.endIndex (by omega) h4 x hx

/-- The raw (pre-escaping) contents of the overlay pieces tile the text
exactly from the running lastIndex to the end. -/
theorem buildPieces_content (text : List Char) (ms : List Mistake) (lo : Int)
    (h0 : 0 ≤ lo) (hlen : lo ≤ (text.length : Int))
    (hv : validSpans (text.length : Int) lo ms = true) :
    ((buildPieces text lo ms).map pieceContent).flatten = text.drop lo.toNat := by
  induction ms generalizing lo with
  | nil =>
    simp only [buildPieces, List.map_cons, List.map_nil, List.flatten_cons,
      List.flatten_nil, List.append_nil, pieceContent]
    rw [jsSubstring_of_range text lo (text.length : Int) h0 hlen le_rfl]
    simp
  | cons m ms ih =>
    simp only [validSpans, Bool.and_eq_true, decide_eq_true_eq] at hv
    obtain ⟨⟨⟨h1, h2⟩, h3⟩, h4⟩ := hv
    simp only [buildPieces, List.map_cons, List.flatten_cons, pieceContent]
    rw [ih m.endIndex (by omega) h3 h4]
    rw [jsSubstring_of_range text lo m.startIndex h0 h1 (by omega),
        jsSubstring_of_range text m.startIndex m.endIndex (by omega) h2 h3]
    have hC : text.drop m.endIndex.toNat = (text.take text.length).drop m.endIndex.toNat := by
      rw [List.take_length]
    rw [hC, take_drop_chain text m.startIndex.toNat m.endIndex.toNat text.length
          (by omega) (by omega),
        take_drop_chain text lo.toNat m.startIndex.toNat text.length
          (by omega) (by omega),
        List.take_length]

/-- The overlay walk emits exactly one marked span per mistake, in walk
order, carrying the substring between its offsets. -/
theorem markedOf_buildPieces (text : List Char) (ms : List Mistake) (lo : Int) :
    markedOf (buildPieces text lo ms)
      = ms.map (fun m => (m, jsSubstring text m.startIndex m.endIndex)) := by
  induction ms generalizing lo with
  | nil => rfl
  | cons m ms ih =>
    simp only [buildPieces, markedOf, List.filterMap_cons, List.map_cons]
    exact congrArg (List.cons _) (ih m.endIndex)

/-- Escaping piece by piece and flattening equals escaping the flattened
contents. -/
theorem flatten_map_escape (ps : List Piece) :
    ((ps.map (fun p => escapeHtml (pieceContent p))).flatten)
      = escapeHtml ((ps.map pieceContent).flatten) := by
  induction ps with
  | nil => rfl
  | cons p ps ih => simp [escapeHtml_append, ih]

/-- The nested push loop produces exactly one record per located
issue. -/
theorem length_filterMap_nested (ty : String) (l : List Issue) :
    (l.filterMap (mkNestedMistake ty)).length
      = (l.filter (fun i => i.location.isSome)).length := by
  induction l with
  | nil => rfl
  | cons i is ih =>
    cases hl : i.location with
    | none => simp [List.filterMap_cons, List.filter_cons, mkNestedMistake, hl, ih]
    | some loc => simp [List.filterMap_cons, List.filter_cons, mkNestedMistake, hl, ih]

/-- Range-safe nested issues produce only records satisfying the
invariant. -/
theorem all_inRange_filterMap_nested (len : Int) (ty : String) (l : List Issue)
    (h : l.all (issueInRange len) = true) :
    (l.filterMap (mkNestedMistake ty)).all (mistakeInRange len) = true := by
  induction l with
  | nil => rfl
  | cons i is ih =>
    rw [List.all_cons, Bool.and_eq_true] at h
    obtain ⟨hi, his⟩ := h
    cases hl : i.location with
    | none => simpa [List.filterMap_cons, mkNestedMistake, hl] using ih his
    | some loc =>
      simp only [issueInRange, hl, Bool.and_eq_true, decide_eq_true_eq] at hi
      simp only [List.filterMap_cons, mkNestedMistake, hl, Option.map_some', List.all_cons,
        Bool.and_eq_true, mistakeInRange, decide_eq_true_eq]
      exact ⟨by omega, ih his⟩

/-- Range-safe flat entries produce only records satisfying the
invariant. -/
theorem all_inRange_filterMap_flat (len : Int) (l : List FlatEntry)
    (h : l.all (flatInRange len) = true) :
    (l.filterMap mkFlatMistake).all (mistakeInRange len) = true := by
  induction l with
  | nil => rfl
  | cons f fs ih =>
    rw [List.all_cons, Bool.and_eq_true] at h
    obtain ⟨hf, hfs⟩ := h
    cases hs : f.startIndex with
    | none => simpa [List.filterMap_cons, mkFlatMistake, hs] using ih hfs
    | some s =>
      cases he : f.endIndex with
      | none => simpa [List.filterMap_cons, mkFlatMistake, hs, he] using ih hfs
      | some e =>
        simp only [flatInRange, hs, he, Bool.and_eq_true, decide_eq_true_eq] at hf
        simp only [List.filterMap_cons, mkFlatMistake, hs, he, List.all_cons,
          Bool.and_eq_true, mistakeInRange, decide_eq_true_eq]
        exact ⟨by omega, ih hfs⟩

/-- C1 (counterexample): parseApiResponse returns a list that is not
sorted ascending by startIndex — a nested response with spelling issues
at offsets 5 then 0 normalizes to startIndex sequence 5, 0. -/
theorem parse_output_not_sorted :
    (parseApiResponse unsortedResp).map (fun m => m.startIndex) = [5, 0] ∧
    ¬ List.Sorted (fun a b : Int => a ≤ b)
        ((parseApiResponse unsortedResp).map (fun m => m.startIndex)) := by
  constructor
  · rfl
  · have e : (parseApiResponse unsortedResp).map (fun m => m.startIndex) = [5, 0] := rfl
    rw [e]
    decide

/-- C1 (amended): the sort that highlightMistakes applies to the
normalized list before rendering returns a list sorted ascending by
startIndex, and it is stable — for every value k, the records with
startIndex k appear in the sorted output exactly in their source
order. -/
theorem renderedSort_sorted_and_stable (ms : List Mistake) :
    List.Sorted (fun a b : Mistake => a.startIndex ≤ b.startIndex) (sortByStart ms) ∧
    ∀ k : Int, (sortByStart ms).filter (fun x => decide (x.startIndex = k))
      = ms.filter (fun x => decide (x.startIndex = k)) :=
  ⟨sortByStart_sorted ms, fun k => filter_key_sortByStart k ms⟩

/-- C2 (counterexample): parseApiResponse performs no range validation —
a flat entry with startIndex 5 and endIndex 3 is normalized into a
record violating 0 ≤ startIndex < endIndex ≤ length(sourceText). -/
theorem parse_invariant_violated :
    (parseApiResponse badFlatResp).map (fun m => (m.startIndex, m.endIndex)) = [(5, 3)] ∧
    (parseApiResponse badFlatResp).all (mistakeInRange 10) = false :=
  ⟨rfl, rfl⟩

/-- C2 (amended): whenever the raw response is range-safe for the source
text — every located issue has non-negative offset, positive length and
ends within the text, and every flat entry has 0 ≤ startIndex <
endIndex ≤ length — every record produced by parseApiResponse satisfies
0 ≤ startIndex < endIndex ≤ length(sourceText). -/
theorem parse_inRange_of_rawInRange (len : Int) (d : ApiData)
    (h : rawInRange len d = true) :
    (parseApiResponse d).all (mistakeInRange len) = true := by
  rw [parseApiResponse_eq]
  simp only [rawInRange, Bool.and_eq_true] at h
  obtain ⟨⟨h1, h2⟩, h3⟩ := h
  simp only [List.all_append, Bool.and_eq_true]
  exact ⟨⟨all_inRange_filterMap_nested len "spelling" _ h1,
          all_inRange_filterMap_nested len "grammar" _ h2⟩,
         all_inRange_filterMap_flat len _ h3⟩

/-- Witness for the amended C2 theorem at a concrete range-safe
response. -/
theorem parse_inRange_witness :
    rawInRange 10 goodResp = true ∧
    (parseApiResponse goodResp).all (mistakeInRange 10) = true :=
  ⟨by decide, parse_inRange_of_rawInRange 10 goodResp (by decide)⟩

/-- C3: for a pre-sorted, non-overlapping, in-range mistake list, the
overlay text content built by highlightMistakes — the concatenation of
the escaped segment before each span, each escaped marked span, and the
escaped remainder — reconstructs the source text exactly after
inverting escapeHtml, and each marked span covers exactly the slice
from startIndex to endIndex of the text. -/
theorem overlay_reconstructs_text (text : List Char) (ms : List Mistake)
    (hv : validSpans (text.length : Int) 0 ms = true) :
    unescapeHtml (overlayEscaped text ms) = text ∧
    markedOf (overlayPieces text ms)
      = ms.map (fun m => (m, (text.take m.endIndex.toNat).drop m.startIndex.toNat)) := by
  have hsort : sortByStart ms = ms :=
    sortByStart_of_sorted ms (validSpans_sorted (text.length : Int) 0 ms hv)
  constructor
  · rw [overlayEscaped, overlayPieces, hsort, flatten_map_escape,
        buildPieces_content text ms 0 le_rfl (by omega) hv, Int.toNat_zero,
        List.drop_zero, unescapeHtml_escapeHtml]
  · rw [overlayPieces, hsort, markedOf_buildPieces]
    apply List.map_congr_left
    intro m hm
    obtain ⟨hb0, hb1, hb2⟩ := validSpans_bounds (text.length : Int) 0 ms le_rfl hv m hm
    rw [jsSubstring_of_range text m.startIndex m.endIndex hb0 hb1 hb2]

/-- Witness for C3 at the worked example: text Helo wrold with spelling
spans 0-4 and 5-10. -/
theorem overlay_reconstructs_text_witness :
    validSpans (("Helo wrold".data.length : Int)) 0 demoMistakes = true ∧
    (unescapeHtml (overlayEscaped "Helo wrold".data demoMistakes) = "Helo wrold".data ∧
     markedOf (overlayPieces "Helo wrold".data demoMistakes)
       = demoMistakes.map
           (fun m => (m, ("Helo wrold".data.take m.endIndex.toNat).drop m.startIndex.toNat))) :=
  ⟨by decide, overlay_reconstructs_text "Helo wrold".data demoMistakes (by decide)⟩

/-- C4 (counterexample): the input/textarea overlay renderer does not
drop an out-of-range mistake — against the two-character text ab, a
mistake with endIndex 5 still yields a marked span, whose content is
the substring clamped into range. -/
theorem overlay_spans_out_of_range :
    (("ab".data.length : Int) < outOfRangeMistake.endIndex) ∧
    markedOf (overlayPieces "ab".data [outOfRangeMistake])
      = [(outOfRangeMistake, "ab".data)] :=
  ⟨by decide, by decide⟩

/-- C4 (amended): only the contenteditable renderer drops mistakes with
offsets outside the range from 0 to length(text) — such a mistake never
yields a span there — while the input/textarea overlay renderer checks
nothing and produces a span for every mistake, with offsets clamped by
the substring semantics. -/
theorem contentEditable_drops_overlay_clamps (len : Int) (text : List Char)
    (ms : List Mistake) (m : Mistake)
    (hm : m.startIndex < 0 ∨ len < m.endIndex) :
    m ∉ highlightContentEditableSpans len ms ∧
    markedOf (overlayPieces text ms)
      = (sortByStart ms).map (fun x => (x, jsSubstring text x.startIndex x.endIndex)) := by
  constructor
  · intro hmem
    obtain ⟨-, hp⟩ := List.mem_filter.mp hmem
    simp only [Bool.and_eq_true, decide_eq_true_eq] at hp
    omega
  · rw [overlayPieces, markedOf_buildPieces]

/-- Witness for the amended C4 theorem at a concrete out-of-range
mistake. -/
theorem contentEditable_drops_witness :
    (outOfRangeMistake.startIndex < 0 ∨ (2 : Int) < outOfRangeMistake.endIndex) ∧
    (outOfRangeMistake ∉ highlightContentEditableSpans 2 [outOfRangeMistake] ∧
     markedOf (overlayPieces "ab".data [outOfRangeMistake])
       = (sortByStart [outOfRangeMistake]).map
           (fun x => (x, jsSubstring "ab".data x.startIndex x.endIndex))) :=
  ⟨by decide,
   contentEditable_drops_overlay_clamps 2 "ab".data [outOfRangeMistake] outOfRangeMistake
     (by decide)⟩

/-- C5: in the nested shape, every issue missing its location is dropped
and the remaining issues are still processed — the output length equals
the located-issue count of both lists — and the demo batch of two
located plus one unlocated spelling issue yields exactly two
records. -/
theorem parse_drops_missing_location (sp gr : List Issue) :
    (parseApiResponse { text := some { spelling_issues := some sp, grammar_issues := some gr },
                        mistakes := none }).length
      = (sp.filter (fun i => i.location.isSome)).length
        + (gr.filter (fun i => i.location.isSome)).length ∧
    (parseApiResponse demoBatch).length = 2 := by
  constructor
  · rw [parseApiResponse_eq]
    simp [spellingIssuesOf, grammarIssuesOf, flatEntriesOf, length_filterMap_nested]
  · rfl

/-- C6: parseApiResponse handles both shapes — every located nested
issue becomes a record with startIndex = location.offset and endIndex =
location.offset + location.length, typed by the list it came from, and
every flat entry with both indices defined becomes a record carrying
its direct fields. -/
theorem parse_handles_both_shapes (d : ApiData) :
    parseApiResponse d =
      (spellingIssuesOf d).filterMap (mkNestedMistake "spelling") ++
      (grammarIssuesOf d).filterMap (mkNestedMistake "grammar") ++
      (flatEntriesOf d).filterMap mkFlatMistake :=
  parseApiResponse_eq d

/-- C7: when the text is non-blank and the fetch throws or the response
status is not ok, the check cycle issues the request but leaves the
element state exactly as it was — no overlay is created, removed or
replaced, so previously rendered highlights remain. -/
theorem checkSpelling_failure_keeps_state (text : String) (net : NetResult)
    (st : ElementState) (hb : isBlankJs text = false) (hf : netFailed net = true) :
    checkSpelling text net st = (st, true) := by
  cases net with
  | failure => simp [checkSpelling, hb]
  | response ok data =>
    have hok : ok = false := by simpa [netFailed] using hf
    subst hok
    simp [checkSpelling, hb]

/-- Witness for C7 at a concrete non-blank text, failed fetch and a
state carrying an overlay. -/
theorem checkSpelling_failure_witness :
    isBlankJs "Helo" = false ∧ netFailed NetResult.failure = true ∧
    checkSpelling "Helo" NetResult.failure demoOverlayState = (demoOverlayState, true) :=
  ⟨by decide, rfl,
   checkSpelling_failure_keeps_state "Helo" NetResult.failure demoOverlayState (by decide) rfl⟩

/-- C8: a flat entry whose type field is undefined normalizes to a
record whose type defaults to spelling. -/
theorem flat_type_defaults_to_spelling (fl : List FlatEntry) (f : FlatEntry) (s e : Int)
    (hf : f ∈ fl) (hs : f.startIndex = some s) (he : f.endIndex = some e)
    (ht : f.type = none) :
    ({ startIndex := s, endIndex := e, message := f.message, suggestions := f.suggestions,
       type := "spelling", code := f.code } : Mistake)
      ∈ parseApiResponse { text := none, mistakes := some fl } := by
  rw [parseApiResponse_eq]
  simp only [spellingIssuesOf, grammarIssuesOf, flatEntriesOf, Option.getD_some,
    List.filterMap_nil, List.nil_append]
  exact List.mem_filterMap.mpr ⟨f, hf, by simp [mkFlatMistake, hs, he, ht, jsOrString]⟩

/-- Witness for C8 at the concrete entry with startIndex 0, endIndex 3
and undefined type. -/
theorem flat_type_defaults_witness :
    demoFlatEntry ∈ [demoFlatEntry] ∧ demoFlatEntry.startIndex = some 0 ∧
    demoFlatEntry.endIndex = some 3 ∧ demoFlatEntry.type = none ∧
    ({ startIndex := 0, endIndex := 3, message := demoFlatEntry.message,
       suggestions := demoFlatEntry.suggestions, type := "spelling",
       code := demoFlatEntry.code } : Mistake)
      ∈ parseApiResponse { text := none, mistakes := some [demoFlatEntry] } :=
  ⟨by decide, rfl, rfl, rfl,
   flat_type_defaults_to_spelling [demoFlatEntry] demoFlatEntry 0 3 (by decide) rfl rfl rfl⟩

/-- C9: clearing highlights on an element with no rendered overlay
removes nothing and changes no rendered state, and clearHighlights is
idempotent — clearing twice leaves the same state as clearing once. -/
theorem clearHighlights_noop_and_idempotent (st s2 : ElementState)
    (h : renderedOverlay st = none) :
    renderedOverlay (clearHighlights st) = renderedOverlay st ∧
    clearHighlights (clearHighlights s2) = clearHighlights s2 := by
  constructor
  · rw [h]
    rfl
  · rfl

/-- Witness for C9 at an element with no entry at all and an element
with an overlay. -/
theorem clearHighlights_noop_witness :
    renderedOverlay { entry := none } = none ∧
    (renderedOverlay (clearHighlights { entry := none }) = renderedOverlay { entry := none } ∧
     clearHighlights (clearHighlights demoOverlayState) = clearHighlights demoOverlayState) :=
  ⟨rfl, clearHighlights_noop_and_idempotent { entry := none } demoOverlayState rfl⟩

/-- C10: a check cycle on blank input — empty text or text of
whitespace only — clears the existing highlights of the element,
issues no network request, and leaves no rendered overlay. -/
theorem checkSpelling_blank_clears (text : String) (net : NetResult) (st : ElementState)
    (h : text = "" ∨ text.data.all isJsWhitespace = true) :
    checkSpelling text net st = (clearHighlights st, false) ∧
    renderedOverlay (checkSpelling text net st).1 = none := by
  have hb : isBlankJs text = true := by
    rcases h with rfl | h
    · rfl
    · rw [isBlankJs]
      have h1 : text.data.dropWhile isJsWhitespace = [] :=
        List.dropWhile_eq_nil_iff.mpr (fun x hx => List.all_eq_true.mp h x hx)
      have h2 : jsTrim text = "" := by
        rw [jsTrim, h1]
        rfl
      simp [h2]
  refine ⟨by simp [checkSpelling, hb], ?_⟩
  simp [checkSpelling, hb, renderedOverlay, clearHighlights]

/-- Witness for C10 at a one-space text against a state carrying an
overlay. -/
theorem checkSpelling_blank_witness :
    ((" " : String) = "" ∨ (" " : String).data.all isJsWhitespace = true) ∧
    (checkSpelling " " NetResult.failure demoOverlayState
       = (clearHighlights demoOverlayState, false) ∧
     renderedOverlay (checkSpelling " " NetResult.failure demoOverlayState).1 = none) :=
  ⟨by decide,
   checkSpelling_blank_clears " " NetResult.failure demoOverlayState (by decide)⟩
